import Mathlib

/-!
Verification of the chat-log record decoder (`src/lib.rs`) against its
specification.

Modelling conventions:
* Byte buffers are `List Nat`, each element a `u8` value.
* Rust `String` values are represented as lists of Unicode scalar values
  (one `Nat` per decoded character), produced by the UTF-8 decoders below.
* Fallible Rust operations that can panic (out-of-bounds indexing or
  slicing) are modelled with the `RustResult` type: `.panicked` is a Rust
  panic, `.ok v` a normal return of `v`.  Every panic guard in a modelled
  function corresponds to a concrete indexing or slicing expression in the
  source, noted in a comment.
* `usize` is 64 bits; `<<` masks its shift amount modulo 64 (release-mode
  Rust semantics), modelled by `shl_usize`.
-/

/-- Result of running a piece of Rust code that may panic. -/
inductive RustResult (α : Type) where
  | panicked : RustResult α
  | ok : α → RustResult α
deriving Repr, DecidableEq

/-- The `Part` enum: one typed segment of a decoded message.
Strings are represented as lists of Unicode scalar values. -/
inductive MsgPart where
  | Name (real_name : List Nat) (display_name : List Nat)
  | AutoTranslate (category : Nat) (id : Nat)
  | PlainText (text : List Nat)
deriving Repr, DecidableEq

/-- The `RawEntryParts` struct: header / sender / message byte ranges. -/
structure RawEntryParts where
  header : List Nat
  sender : List Nat
  message : List Nat
deriving Repr, DecidableEq

/-- The `Message` struct: an ordered sequence of parts. -/
structure Message where
  parts : List MsgPart
deriving Repr, DecidableEq

/-- The `Entry` struct produced by `RawEntryParts::as_entry`. -/
structure Entry where
  entry_type : Nat
  timestamp : Nat
  sender : Option MsgPart
  message : Message
deriving Repr, DecidableEq

/-- Rust slice `l[a..b]` (caller must have established `a ≤ b ≤ l.length`;
panic guards are placed at each call site that needs them). -/
def subslice (l : List Nat) (a b : Nat) : List Nat :=
  (l.take b).drop a

/-- `iter().position(|x| x == &t)`: index of the first occurrence of `t`. -/
def findByte : List Nat → Nat → Option Nat
  | [], _ => none
  | b :: rest, t => if b = t then some 0 else (findByte rest t).map (· + 1)

/-- `windows(2).position(|w| w == &[x, y])`: index of the first adjacent
pair `x, y`. -/
def findWindow2 : List Nat → Nat → Nat → Option Nat
  | [], _, _ => none
  | [_], _, _ => none
  | a :: b :: rest, x, y =>
    if a = x ∧ b = y then some 0 else (findWindow2 (b :: rest) x y).map (· + 1)

/-- Is `b` a UTF-8 continuation byte (`0x80..=0xBF`)? -/
def cont_byte (b : Nat) : Bool :=
  decide (0x80 ≤ b ∧ b ≤ 0xBF)

/-- Allowed range of the first continuation byte of a three-byte UTF-8
sequence with leading byte `b`. -/
def cont_byte3 (b b1 : Nat) : Bool :=
  decide ((if b = 0xE0 then 0xA0 else 0x80) ≤ b1 ∧ b1 ≤ (if b = 0xED then 0x9F else 0xBF))

/-- Allowed range of the first continuation byte of a four-byte UTF-8
sequence with leading byte `b`. -/
def cont_byte4 (b b1 : Nat) : Bool :=
  decide ((if b = 0xF0 then 0x90 else 0x80) ≤ b1 ∧ b1 ≤ (if b = 0xF4 then 0x8F else 0xBF))

/-- Strict UTF-8 decoding (`String::from_utf8`): `some` list of scalar
values on valid input, `none` on any ill-formed sequence. -/
def utf8Decode : List Nat → Option (List Nat)
  | [] => some []
  | b :: rest =>
    if b ≤ 0x7F then (utf8Decode rest).map (fun t => b :: t)
    else if 0xC2 ≤ b ∧ b ≤ 0xDF then
      match rest with
      | b1 :: r =>
        if cont_byte b1 then
          (utf8Decode r).map (fun t => ((b - 0xC0) * 0x40 + (b1 - 0x80)) :: t)
        else none
      | [] => none
    else if 0xE0 ≤ b ∧ b ≤ 0xEF then
      match rest with
      | b1 :: b2 :: r =>
        if cont_byte3 b b1 && cont_byte b2 then
          (utf8Decode r).map
            (fun t => ((b - 0xE0) * 0x1000 + (b1 - 0x80) * 0x40 + (b2 - 0x80)) :: t)
        else none
      | _ => none
    else if 0xF0 ≤ b ∧ b ≤ 0xF4 then
      match rest with
      | b1 :: b2 :: b3 :: r =>
        if cont_byte4 b b1 && cont_byte b2 && cont_byte b3 then
          (utf8Decode r).map
            (fun t => ((b - 0xF0) * 0x40000 + (b1 - 0x80) * 0x1000 +
                       (b2 - 0x80) * 0x40 + (b3 - 0x80)) :: t)
        else none
      | _ => none
    else none

/-- Worker for `utf8Lossy`.  The fuel argument bounds the number of steps;
each step consumes at least one byte, so the `l.length` supplied by
`utf8Lossy` always suffices and the fuel-exhausted branch is unreachable
from it. -/
def utf8Lossy_go : Nat → List Nat → List Nat
  | _, [] => []
  | 0, _ :: _ => []
  | fuel + 1, b :: rest =>
    if b ≤ 0x7F then b :: utf8Lossy_go fuel rest
    else if 0xC2 ≤ b ∧ b ≤ 0xDF then
      match rest with
      | [] => [0xFFFD]
      | b1 :: r =>
        if cont_byte b1 then ((b - 0xC0) * 0x40 + (b1 - 0x80)) :: utf8Lossy_go fuel r
        else 0xFFFD :: utf8Lossy_go fuel rest
    else if 0xE0 ≤ b ∧ b ≤ 0xEF then
      match rest with
      | [] => [0xFFFD]
      | b1 :: r =>
        if cont_byte3 b b1 then
          match r with
          | [] => [0xFFFD]
          | b2 :: r2 =>
            if cont_byte b2 then
              ((b - 0xE0) * 0x1000 + (b1 - 0x80) * 0x40 + (b2 - 0x80)) :: utf8Lossy_go fuel r2
            else 0xFFFD :: utf8Lossy_go fuel r
        else 0xFFFD :: utf8Lossy_go fuel rest
    else if 0xF0 ≤ b ∧ b ≤ 0xF4 then
      match rest with
      | [] => [0xFFFD]
      | b1 :: r =>
        if cont_byte4 b b1 then
          match r with
          | [] => [0xFFFD]
          | b2 :: r2 =>
            if cont_byte b2 then
              match r2 with
              | [] => [0xFFFD]
              | b3 :: r3 =>
                if cont_byte b3 then
                  ((b - 0xF0) * 0x40000 + (b1 - 0x80) * 0x1000 +
                   (b2 - 0x80) * 0x40 + (b3 - 0x80)) :: utf8Lossy_go fuel r3
                else 0xFFFD :: utf8Lossy_go fuel r2
            else 0xFFFD :: utf8Lossy_go fuel r
        else 0xFFFD :: utf8Lossy_go fuel rest
    else 0xFFFD :: utf8Lossy_go fuel rest

/-- Lossy UTF-8 decoding (`String::from_utf8_lossy`): each maximal subpart
of an ill-formed subsequence becomes one replacement character `0xFFFD`. -/
def utf8Lossy (l : List Nat) : List Nat :=
  utf8Lossy_go l.length l

/-- `NamePart::marker_bytes()`. -/
def NamePart.marker_bytes : Nat × Nat := (0x02, 0x27)

/-- `AutoTranslatePart::marker_bytes()`. -/
def AutoTranslatePart.marker_bytes : Nat × Nat := (0x02, 0x2E)

/-- `NamePart::verify_data`. -/
def NamePart.verify_data (bytes : List Nat) : Bool :=
  if bytes.length < 22 then false
  else if bytes.getD 0 0 ≠ NamePart.marker_bytes.1 ∨ bytes.getD 1 0 ≠ NamePart.marker_bytes.2 then
    false
  else true

/-- `NamePart::determine_length`.  `bytes[2..]` panics when the buffer is
shorter than two bytes; the second slice `bytes[end_pos + 2..]` is always
in range because the window was found inside `bytes[2..]`. -/
def NamePart.determine_length (bytes : List Nat) : RustResult Nat :=
  if bytes.length < 2 then .panicked
  else
    match findWindow2 (bytes.drop 2) 0x02 0x27 with
    | none => .ok 0
    | some end_pos =>
      match findByte (bytes.drop (end_pos + 2)) 0x03 with
      | none => .ok 0
      | some last_three => .ok (2 + end_pos + last_three)

/-- `NamePart::parse`.  The panic guards correspond to the slices
`bytes[real_length..]` (needs `real_length ≤ len`), `bytes[9..real_length]`
(needs `9 ≤ real_length`) and `bytes[real_length + 1..display_end]`
(needs `real_length + 1 ≤ display_end`). -/
def NamePart.parse (bytes : List Nat) : RustResult (Option MsgPart) :=
  if NamePart.verify_data bytes then
    let real_length := bytes.getD 2 0 + 2
    if bytes.length < real_length then .panicked
    else
      match findByte (bytes.drop real_length) 0x02 with
      | none => .ok none
      | some i =>
        let display_end := i + real_length
        if real_length < 9 then .panicked
        else
          match utf8Decode (subslice bytes 9 real_length) with
          | none => .ok none
          | some real_name =>
            if display_end < real_length + 1 then .panicked
            else
              match utf8Decode (subslice bytes (real_length + 1) display_end) with
              | none => .ok none
              | some display_name => .ok (some (MsgPart.Name real_name display_name))
  else .ok none

/-- `AutoTranslatePart::verify_data`. -/
def AutoTranslatePart.verify_data (bytes : List Nat) : Bool :=
  if bytes.length < 6 then false
  else if bytes.getD 0 0 ≠ AutoTranslatePart.marker_bytes.1 ∨
          bytes.getD 1 0 ≠ AutoTranslatePart.marker_bytes.2 then
    false
  else true

/-- `AutoTranslatePart::determine_length`: `bytes[2] as usize + 3`.  The
index `bytes[2]` panics when the buffer holds fewer than three bytes. -/
def AutoTranslatePart.determine_length (bytes : List Nat) : RustResult Nat :=
  if bytes.length < 3 then .panicked
  else .ok (bytes.getD 2 0 + 3)

/-- Rust release-mode `x << s` on `usize`: the shift amount is masked
modulo the 64-bit width. -/
def shl_usize (x s : Nat) : Nat :=
  (x <<< (s % 64)) % 2 ^ 64

/-- The `for (i, b) in bytes[1..].iter().enumerate()` loop body of
`byte_array_to_be`: `res |= (*b as usize) << (8 * (length - i - 2))`. -/
def be_loop (length : Nat) : List Nat → Nat → Nat → Nat
  | [], _, res => res
  | b :: rest, i, res => be_loop length rest (i + 1) (res ||| shl_usize b (8 * (length - i - 2)))

/-- `AutoTranslatePart::byte_array_to_be`. -/
def AutoTranslatePart.byte_array_to_be (bytes : List Nat) : Option Nat :=
  if bytes.length < 1 then none
  else if bytes.length = 1 then some (bytes.getD 0 0)
  else
    let length := bytes.length
    some (be_loop length (bytes.drop 1) 0 (shl_usize (bytes.getD 0 0) (8 * (length - 1))))

/-- `AutoTranslatePart::parse`.  The slice `bytes[4..3 + length]` panics
when `3 + length < 4` or `3 + length` exceeds the buffer length. -/
def AutoTranslatePart.parse (bytes : List Nat) : RustResult (Option MsgPart) :=
  if AutoTranslatePart.verify_data bytes then
    let length := bytes.getD 2 0
    let category := bytes.getD 3 0
    if 3 + length < 4 ∨ bytes.length < 3 + length then .panicked
    else
      match AutoTranslatePart.byte_array_to_be (subslice bytes 4 (3 + length)) with
      | none => .ok none
      | some id => .ok (some (MsgPart.AutoTranslate category id))
  else .ok none

/-- `MessageParser::parse_structure`, with the `parse_structure_macro!`
invocations expanded at each branch exactly as the Rust macro expands.
The slice `&message[..length]` panics when `length` exceeds the buffer. -/
def MessageParser.parse_structure (message : List Nat) : RustResult (Option (Nat × MsgPart)) :=
  if message.length < 2 then .ok none
  else
    let structure_id := message.getD 1 0
    if structure_id = NamePart.marker_bytes.2 then
      match NamePart.determine_length message with
      | .panicked => .panicked
      | .ok length =>
        if message.length < length then .panicked
        else
          match NamePart.parse (message.take length) with
          | .panicked => .panicked
          | .ok none => .ok none
          | .ok (some part) => .ok (some (length, part))
    else if structure_id = AutoTranslatePart.marker_bytes.2 then
      match AutoTranslatePart.determine_length message with
      | .panicked => .panicked
      | .ok length =>
        if message.length < length then .panicked
        else
          match AutoTranslatePart.parse (message.take length) with
          | .panicked => .panicked
          | .ok none => .ok none
          | .ok (some part) => .ok (some (length, part))
    else .ok none

/-- Flush the literal accumulator: `if !buf.is_empty() { parts.push(...) }`. -/
def flush_buf (buf : List Nat) : List MsgPart :=
  if buf.isEmpty then [] else [MsgPart.PlainText (utf8Lossy buf)]

/-- The scanning loop of `MessageParser::parse`.  The first argument is
fuel bounding the number of iterations; every iteration consumes at least
one byte of the suffix, so the `message.length` supplied by
`MessageParser.parse` always suffices and the fuel-exhausted branch is
unreachable from it. -/
def MessageParser.parse_loop : Nat → List Nat → List Nat → RustResult (List MsgPart)
  | _, [], buf => .ok (flush_buf buf)
  | 0, _ :: _, buf => .ok (flush_buf buf)
  | fuel + 1, byte :: rest, buf =>
    if byte = 0x02 then
      match MessageParser.parse_structure (byte :: rest) with
      | .panicked => .panicked
      | .ok (some (len, part)) =>
        match MessageParser.parse_loop fuel (rest.drop len) [] with
        | .panicked => .panicked
        | .ok tail => .ok (flush_buf buf ++ part :: tail)
      | .ok none => MessageParser.parse_loop fuel rest (buf ++ [byte])
    else MessageParser.parse_loop fuel rest (buf ++ [byte])

/-- `MessageParser::parse`. -/
def MessageParser.parse (message : List Nat) : RustResult (List MsgPart) :=
  MessageParser.parse_loop message.length message []

/-- `RawEntry::get_header`. -/
def RawEntry.get_header (bytes : List Nat) : Option (List Nat) :=
  if bytes.length < 8 then none else some (bytes.take 8)

/-- `RawEntry::as_parts`.  The slice `self.bytes[9..]` panics when the
record is exactly 8 bytes long (`get_header` only rules out fewer than 8). -/
def RawEntry.as_parts (bytes : List Nat) : RustResult (Option RawEntryParts) :=
  match RawEntry.get_header bytes with
  | none => .ok none
  | some header =>
    if bytes.length < 9 then .panicked
    else
      match findByte (bytes.drop 9) 0x3A with
      | none => .ok none
      | some second_colon =>
        .ok (some { header := header
                    sender := subslice bytes 9 (second_colon + 9)
                    message := bytes.drop (second_colon + 9 + 1) })

/-- `LittleEndian::read_u32` applied to the first four bytes. -/
def read_u32_le (b : List Nat) : Nat :=
  b.getD 0 0 + b.getD 1 0 * 256 + b.getD 2 0 * 65536 + b.getD 3 0 * 16777216

/-- `RawEntryParts::as_entry`.  `self.header[4]` (and the
`read_u32(&self.header[..4])` before it) panics when the header holds
fewer than five bytes; headers made by `as_parts` always hold eight. -/
def RawEntryParts.as_entry (p : RawEntryParts) : RustResult Entry :=
  if p.header.length < 5 then .panicked
  else
    let entry_type := p.header.getD 4 0
    let timestamp := read_u32_le p.header
    let senderRes : RustResult (Option MsgPart) :=
      if p.sender.isEmpty then .ok none
      else
        match NamePart.parse p.sender with
        | .panicked => .panicked
        | .ok (some part) => .ok (some part)
        | .ok none =>
          match utf8Decode p.sender with
          | some name => .ok (some (MsgPart.Name name name))
          | none => .ok none
    match senderRes with
    | .panicked => .panicked
    | .ok sender =>
      match MessageParser.parse p.message with
      | .panicked => .panicked
      | .ok parts =>
        .ok { entry_type := entry_type
              timestamp := timestamp
              sender := sender
              message := { parts := parts } }

/-- Spec-side definition ("standard positional big-endian value with the
most significant byte first"), for comparison with `byte_array_to_be`. -/
def be_value_spec (bytes : List Nat) : Nat :=
  bytes.foldl (fun acc b => acc * 256 + b) 0

/-- `List.getD` through `List.drop`. -/
theorem getD_drop (n : Nat) : ∀ (l : List Nat) (k d : Nat), (l.drop n).getD k d = l.getD (n + k) d := by
  induction n with
  | zero => intro l k d; simp
  | succ n ih =>
    intro l k d
    cases l with
    | nil => simp
    | cons a t =>
      rw [List.drop_succ_cons, ih t k d, show n + 1 + k = n + k + 1 from by omega,
        List.getD_cons_succ]

/-- `findByte` finds exactly the first index holding the target byte. -/
theorem findByte_eq_some : ∀ (l : List Nat) (t i : Nat),
    i < l.length → l.getD i 0 = t → (∀ k, k < i → l.getD k 0 ≠ t) →
    findByte l t = some i := by
  intro l
  induction l with
  | nil => intro t i hi; simp at hi
  | cons b rest ih =>
    intro t i hi hget hfirst
    cases i with
    | zero =>
      simp only [List.getD_cons_zero] at hget
      simp [findByte, hget]
    | succ i =>
      have hb : b ≠ t := by
        have := hfirst 0 (Nat.succ_pos i)
        simpa using this
      simp only [findByte, if_neg hb]
      rw [ih t i (by simpa using hi) (by simpa using hget)
        (fun k hk => by simpa using hfirst (k + 1) (by omega))]
      rfl

/-- A nonempty byte buffer never decodes to the empty text, even lossily. -/
theorem utf8Lossy_ne_nil : ∀ (l : List Nat), l ≠ [] → utf8Lossy l ≠ [] := by
  intro l hne
  cases l with
  | nil => exact absurd rfl hne
  | cons b rest =>
    show utf8Lossy_go (b :: rest).length (b :: rest) ≠ []
    simp only [List.length_cons]
    unfold utf8Lossy_go
    repeat' split
    all_goals simp

/-- Plain-text parts produced by flushing carry the lossy decoding of a
nonempty accumulator. -/
theorem flush_buf_plaintext (buf : List Nat) (t : List Nat) :
    MsgPart.PlainText t ∈ flush_buf buf → t ≠ [] := by
  unfold flush_buf
  split
  · intro h; simp at h
  · intro h
    rename_i hne
    have hbuf : buf ≠ [] := by
      intro hb; subst hb; simp at hne
    have ht : t = utf8Lossy buf := by simpa using h
    subst ht
    exact utf8Lossy_ne_nil buf hbuf

/-- `NamePart::parse` only ever produces `Name` parts. -/
theorem name_parse_not_plaintext (bytes : List Nat) (p : MsgPart) :
    NamePart.parse bytes = .ok (some p) → ∀ t, p ≠ MsgPart.PlainText t := by
  intro h t
  simp only [NamePart.parse] at h
  repeat' split at h
  all_goals first | (cases h; simp) | simp_all

/-- `AutoTranslatePart::parse` only ever produces `AutoTranslate` parts. -/
theorem at_parse_not_plaintext (bytes : List Nat) (p : MsgPart) :
    AutoTranslatePart.parse bytes = .ok (some p) → ∀ t, p ≠ MsgPart.PlainText t := by
  intro h t
  simp only [AutoTranslatePart.parse] at h
  repeat' split at h
  all_goals first | (cases h; simp) | simp_all

/-- Decoded sub-structures are never plain-text parts. -/
theorem parse_structure_not_plaintext (msg : List Nat) (len : Nat) (p : MsgPart) :
    MessageParser.parse_structure msg = .ok (some (len, p)) → ∀ t, p ≠ MsgPart.PlainText t := by
  intro h t
  simp only [MessageParser.parse_structure] at h
  repeat' split at h
  all_goals try simp_all
  · exact name_parse_not_plaintext _ _ (by assumption) t
  · exact at_parse_not_plaintext _ _ (by assumption) t

/-- Scanning a marker-free suffix only extends the literal accumulator. -/
theorem parse_loop_no_marker : ∀ (msg : List Nat) (fuel : Nat) (buf : List Nat),
    msg.length ≤ fuel → (∀ b ∈ msg, b ≠ 0x02) →
    MessageParser.parse_loop fuel msg buf = .ok (flush_buf (buf ++ msg)) := by
  intro msg
  induction msg with
  | nil =>
    intro fuel buf _ _
    cases fuel <;> simp [MessageParser.parse_loop]
  | cons b rest ih =>
    intro fuel buf hlen h2
    cases fuel with
    | zero => simp at hlen
    | succ f =>
      have hb : b ≠ 2 := h2 b (by simp)
      simp only [MessageParser.parse_loop, if_neg hb]
      rw [ih f (buf ++ [b]) (by simpa using hlen) (fun x hx => h2 x (by simp [hx]))]
      simp

/-- Every plain-text part emitted by the scanning loop is nonempty. -/
theorem parse_loop_plaintext_ne_nil : ∀ (fuel : Nat) (msg buf : List Nat) (res : List MsgPart),
    MessageParser.parse_loop fuel msg buf = .ok res →
    ∀ t, MsgPart.PlainText t ∈ res → t ≠ [] := by
  intro fuel
  induction fuel with
  | zero =>
    intro msg buf res h t hmem
    cases msg <;> simp only [MessageParser.parse_loop] at h <;>
      (cases h; exact flush_buf_plaintext _ _ hmem)
  | succ f ih =>
    intro msg buf res h t hmem
    cases msg with
    | nil =>
      simp only [MessageParser.parse_loop] at h
      cases h
      exact flush_buf_plaintext _ _ hmem
    | cons b rest =>
      simp only [MessageParser.parse_loop] at h
      split at h
      · split at h
        · cases h
        · rename_i hstruct
          split at h
          · cases h
          · rename_i hrec
            cases h
            rcases List.mem_append.mp hmem with hf | hpt
            · exact flush_buf_plaintext _ _ hf
            · rcases List.mem_cons.mp hpt with heq | htail
              · exact absurd heq.symm (parse_structure_not_plaintext _ _ _ hstruct t)
              · exact ih _ _ _ hrec t htail
        · exact ih _ _ _ h t hmem
      · exact ih _ _ _ h t hmem

/-- Oring a multiple of `2 ^ k` with a value below `2 ^ k` is addition. -/
theorem lor_mul_two_pow (k : Nat) : ∀ a b : Nat, b < 2 ^ k → a * 2 ^ k ||| b = a * 2 ^ k + b := by
  induction k with
  | zero =>
    intro a b hb
    have hb0 : b = 0 := by omega
    subst hb0
    simp
  | succ k ih =>
    intro a b hb
    have hpow : 2 ^ (k + 1) = 2 ^ k * 2 := pow_succ 2 k
    have hdiv : b / 2 < 2 ^ k := by
      rw [Nat.div_lt_iff_lt_mul (by norm_num)]
      omega
    have hdecomp : 2 * (b / 2) + b.bodd.toNat = b := by
      have h := (Nat.bit_val b.bodd b.div2).symm.trans (Nat.bit_decomp b)
      rwa [Nat.div2_val] at h
    have hlhs : a * 2 ^ (k + 1) = Nat.bit false (a * 2 ^ k) := by
      rw [Nat.bit_val]
      simp only [Bool.toNat_false, add_zero, hpow]
      ring
    calc a * 2 ^ (k + 1) ||| b
        = Nat.bit false (a * 2 ^ k) ||| Nat.bit b.bodd b.div2 := by
          rw [← hlhs, Nat.bit_decomp]
      _ = Nat.bit (false || b.bodd) (a * 2 ^ k ||| b.div2) :=
          Nat.lor_bit false (a * 2 ^ k) b.bodd b.div2
      _ = Nat.bit b.bodd (a * 2 ^ k + b / 2) := by
          rw [Bool.false_or, Nat.div2_val, ih a (b / 2) hdiv]
      _ = 2 * (a * 2 ^ k + b / 2) + b.bodd.toNat := Nat.bit_val b.bodd (a * 2 ^ k + b / 2)
      _ = a * 2 ^ (k + 1) + b := by
          have h2 : a * 2 ^ (k + 1) = 2 * (a * 2 ^ k) := by rw [hpow]; ring
          rw [h2]
          omega

/-- `shl_usize` is plain multiplication while the shift amount and the
result fit in 64 bits. -/
theorem shl_usize_eq (x s : Nat) (hs : s < 64) (hx : x * 2 ^ s < 2 ^ 64) :
    shl_usize x s = x * 2 ^ s := by
  unfold shl_usize
  rw [Nat.mod_eq_of_lt hs, Nat.shiftLeft_eq, Nat.mod_eq_of_lt hx]

/-- A byte shifted into its field stays below the next field boundary. -/
theorem byte_shift_lt (b m : Nat) (hb : b < 256) :
    b * 2 ^ (8 * m) < 2 ^ (8 * (m + 1)) := by
  calc b * 2 ^ (8 * m) < 256 * 2 ^ (8 * m) :=
        (Nat.mul_lt_mul_right (Nat.pos_pow_of_pos _ (by norm_num))).mpr hb
    _ = 2 ^ (8 * (m + 1)) := by
        rw [show 8 * (m + 1) = 8 + 8 * m from by ring, pow_add]
        norm_num

/-- The accumulation loop of `byte_array_to_be` computes the positional
big-endian value when at most eight bytes are involved. -/
theorem be_loop_spec : ∀ (tail : List Nat) (n i v : Nat),
    n = i + 1 + tail.length → n ≤ 8 → (∀ b ∈ tail, b < 256) → v < 2 ^ (8 * (i + 1)) →
    be_loop n tail i (v * 2 ^ (8 * tail.length)) =
      tail.foldl (fun acc b => acc * 256 + b) v := by
  intro tail
  induction tail with
  | nil =>
    intro n i v _ _ _ _
    simp [be_loop]
  | cons b rest ih =>
    intro n i v hn h8 hb hv
    rw [List.length_cons] at hn
    have hb256 : b < 256 := hb b (by simp)
    have hrlen : rest.length ≤ 6 := by omega
    have h1 : 8 * (n - i - 2) = 8 * rest.length := by omega
    have h2 : shl_usize b (8 * rest.length) = b * 2 ^ (8 * rest.length) := by
      apply shl_usize_eq _ _ (by omega)
      calc b * 2 ^ (8 * rest.length) < 2 ^ (8 * (rest.length + 1)) := byte_shift_lt b _ hb256
        _ ≤ 2 ^ 64 := Nat.pow_le_pow_right (by norm_num) (by omega)
    have h3 : v * 2 ^ (8 * (rest.length + 1)) ||| b * 2 ^ (8 * rest.length) =
        v * 2 ^ (8 * (rest.length + 1)) + b * 2 ^ (8 * rest.length) :=
      lor_mul_two_pow _ v _ (byte_shift_lt b _ hb256)
    have h4 : v * 2 ^ (8 * (rest.length + 1)) + b * 2 ^ (8 * rest.length) =
        (v * 256 + b) * 2 ^ (8 * rest.length) := by
      rw [show 8 * (rest.length + 1) = 8 * rest.length + 8 from by ring, pow_add]
      ring
    have hv2 : v * 256 + b < 2 ^ (8 * (i + 1 + 1)) := by
      have hX : 2 ^ (8 * (i + 1 + 1)) = 2 ^ (8 * (i + 1)) * 256 := by
        rw [show 8 * (i + 1 + 1) = 8 * (i + 1) + 8 from by ring, pow_add]
        norm_num
      rw [hX]
      nlinarith [hv, hb256]
    simp only [be_loop, List.length_cons, h1, h2, h3, h4, List.foldl_cons]
    exact ih n (i + 1) (v * 256 + b) (by omega) h8 (fun x hx => hb x (by simp [hx])) hv2

/-- `byte_array_to_be` agrees with the positional big-endian value on
nonempty byte slices of at most eight bytes. -/
theorem byte_array_to_be_spec (bytes : List Nat) (hne : bytes ≠ []) (hlen : bytes.length ≤ 8)
    (hb : ∀ b ∈ bytes, b < 256) :
    AutoTranslatePart.byte_array_to_be bytes = some (be_value_spec bytes) := by
  cases bytes with
  | nil => exact absurd rfl hne
  | cons b tail =>
    cases tail with
    | nil => simp [AutoTranslatePart.byte_array_to_be, be_value_spec]
    | cons c t =>
      simp only [AutoTranslatePart.byte_array_to_be]
      rw [if_neg (by simp), if_neg (by simp)]
      have hshift : shl_usize b (8 * ((b :: c :: t).length - 1)) =
          b * 2 ^ (8 * (c :: t).length) := by
        have hlc : (b :: c :: t).length - 1 = (c :: t).length := by simp
        rw [hlc]
        apply shl_usize_eq _ _ (by simp at hlen ⊢; omega)
        calc b * 2 ^ (8 * (c :: t).length) < 2 ^ (8 * ((c :: t).length + 1)) :=
              byte_shift_lt b _ (hb b (by simp))
          _ ≤ 2 ^ 64 := Nat.pow_le_pow_right (by norm_num) (by simp at hlen ⊢; omega)
      have hdrop : (b :: c :: t).drop 1 = c :: t := by simp
      have hget : (b :: c :: t).getD 0 0 = b := by simp
      rw [hget, hdrop, hshift,
        be_loop_spec (c :: t) (b :: c :: t).length 0 b (by simp; omega) (by simpa using hlen)
          (fun x hx => hb x (List.mem_cons_of_mem b hx)) (by simpa using hb b (by simp))]
      simp [be_value_spec]

/-- Claim C1 (code bug): the claim says the Message Scanner never fails and
treats any `0x02` byte that does not begin a successfully decoded
sub-structure as literal data — including when the computed sub-structure
length cannot be read or exceeds the remaining buffer.  The code instead
panics on the message `[0x02, 0x2E]` (reading the length byte `bytes[2]`
of a two-byte slice) and on `[0x02, 0x2E, 0xFF]` (slicing
`&message[..258]` of a three-byte buffer). -/
theorem C1_scanner_panics_on_truncated_marker :
    MessageParser.parse [0x02, 0x2E] = RustResult.panicked ∧
    MessageParser.parse [0x02, 0x2E, 0xFF] = RustResult.panicked := by
  decide

/-- Claim C2 counterexample: the buffer `[0x02, 0x2E, 2, 5, 0x7B, 0x03, 'h', 'i']`
(Auto-Translate marker, length byte 2, category 5, id byte `0x7B`, a
terminator, then `"hi"`) does not decode to
`[AutoTranslate{category: 5, id: 123}, PlainText("hi")]`. -/
theorem C2_counterexample :
    MessageParser.parse [0x02, 0x2E, 2, 5, 0x7B, 0x03, 104, 105] ≠
      RustResult.ok [MsgPart.AutoTranslate 5 123, MsgPart.PlainText [104, 105]] := by
  decide

/-- Claim C2 (amended): the trimmed five-byte sub-structure
`[0x02, 0x2E, 2, 5, 0x7B]` fails `AutoTranslatePart::verify_data`'s
six-byte minimum, so the marker degrades to literal data and the whole
buffer decodes to a single `PlainText` segment holding its lossy UTF-8
decoding. -/
theorem C2_amended_literal_degradation :
    MessageParser.parse [0x02, 0x2E, 2, 5, 0x7B, 0x03, 104, 105] =
      RustResult.ok [MsgPart.PlainText (utf8Lossy [0x02, 0x2E, 2, 5, 0x7B, 0x03, 104, 105])] := by
  decide

/-- Claim C3 (code bug): the claim says the Record Framer totally returns
`Some` or `None`, in particular `None` for every record shorter than nine
bytes.  On a record of exactly eight bytes `get_header` succeeds (it only
rules out fewer than eight) and the subsequent slice `self.bytes[9..]`
panics. -/
theorem C3_framer_panics_on_eight_byte_record :
    RawEntry.as_parts [0, 0, 0, 0, 0, 0, 0, 0] = RustResult.panicked ∧
    RawEntry.as_parts [0, 0, 0, 0, 0, 0, 0] = RustResult.ok none := by
  decide

/-- Claim C4 (code bug): the claim says the Entry Assembler never fails and
that a Name decode whose computed offset `bytes[2] + 2` exceeds the sender
buffer returns no value rather than panicking.  On the 22-byte sender
`[0x02, 0x27, 0xFF, 0, ..., 0]` the offset is 257 and the slice
`bytes[real_length..]` panics, so `as_entry` panics as well. -/
theorem C4_assembler_panics_on_oversized_name_offset :
    NamePart.parse ([0x02, 0x27, 0xFF] ++ List.replicate 19 0) = RustResult.panicked ∧
    RawEntryParts.as_entry
        ⟨[0, 0, 0, 0, 0, 0, 0, 0], [0x02, 0x27, 0xFF] ++ List.replicate 19 0, []⟩ =
      RustResult.panicked := by
  decide

/-- Claim C5: for every record successfully framed into parts whose
assembly produces an Entry, the Entry's timestamp is the little-endian
32-bit reconstruction of header bytes 0–3 and its entry type is header
byte 4. -/
theorem C5_entry_header_fields (bytes : List Nat) (p : RawEntryParts) (e : Entry)
    (_hframe : RawEntry.as_parts bytes = .ok (some p))
    (hassemble : RawEntryParts.as_entry p = .ok e) :
    e.timestamp = p.header.getD 0 0 + p.header.getD 1 0 * 256 + p.header.getD 2 0 * 65536 +
      p.header.getD 3 0 * 16777216 ∧
    e.entry_type = p.header.getD 4 0 := by
  simp only [RawEntryParts.as_entry] at hassemble
  repeat' split at hassemble
  all_goals cases hassemble
  all_goals exact ⟨rfl, rfl⟩

/-- Witness for C5 at the record `[1, 2, 3, 4, 5, 0, 0, 0, 0, 0x3A, 'h', 'i']`. -/
theorem C5_entry_header_fields_witness :
    RawEntry.as_parts [1, 2, 3, 4, 5, 0, 0, 0, 0, 0x3A, 104, 105] =
      .ok (some ⟨[1, 2, 3, 4, 5, 0, 0, 0], [], [104, 105]⟩) ∧
    RawEntryParts.as_entry ⟨[1, 2, 3, 4, 5, 0, 0, 0], [], [104, 105]⟩ =
      .ok ⟨5, 67305985, none, ⟨[MsgPart.PlainText [104, 105]]⟩⟩ ∧
    ((⟨5, 67305985, none, ⟨[MsgPart.PlainText [104, 105]]⟩⟩ : Entry).timestamp =
        ([1, 2, 3, 4, 5, 0, 0, 0] : List Nat).getD 0 0 +
        ([1, 2, 3, 4, 5, 0, 0, 0] : List Nat).getD 1 0 * 256 +
        ([1, 2, 3, 4, 5, 0, 0, 0] : List Nat).getD 2 0 * 65536 +
        ([1, 2, 3, 4, 5, 0, 0, 0] : List Nat).getD 3 0 * 16777216 ∧
      (⟨5, 67305985, none, ⟨[MsgPart.PlainText [104, 105]]⟩⟩ : Entry).entry_type =
        ([1, 2, 3, 4, 5, 0, 0, 0] : List Nat).getD 4 0) :=
  ⟨by decide, by decide,
    C5_entry_header_fields [1, 2, 3, 4, 5, 0, 0, 0, 0, 0x3A, 104, 105]
      ⟨[1, 2, 3, 4, 5, 0, 0, 0], [], [104, 105]⟩
      ⟨5, 67305985, none, ⟨[MsgPart.PlainText [104, 105]]⟩⟩ (by decide) (by decide)⟩

/-- Claim C6: whenever assembly produces an Entry, its sender follows the
exact cascade: empty sender range gives an absent sender; otherwise a
successful Name decode is used; otherwise valid UTF-8 text `t` gives
`Name {real_name = t, display_name = t}`; otherwise the sender is absent. -/
theorem C6_sender_cascade (p : RawEntryParts) (e : Entry)
    (hassemble : RawEntryParts.as_entry p = .ok e) :
    (p.sender = [] → e.sender = none) ∧
    (∀ part, p.sender ≠ [] → NamePart.parse p.sender = .ok (some part) →
      e.sender = some part) ∧
    (∀ t, p.sender ≠ [] → NamePart.parse p.sender = .ok none → utf8Decode p.sender = some t →
      e.sender = some (MsgPart.Name t t)) ∧
    (p.sender ≠ [] → NamePart.parse p.sender = .ok none → utf8Decode p.sender = none →
      e.sender = none) := by
  simp only [RawEntryParts.as_entry] at hassemble
  repeat' split at hassemble
  all_goals cases hassemble
  all_goals
    refine ⟨fun hnil => ?_, fun part hne hp => ?_, fun t hne hp hu => ?_, fun hne hp hu => ?_⟩
  all_goals simp_all

/-- Witness for C6 at the sender bytes of `"alice"`. -/
theorem C6_sender_cascade_witness :
    RawEntryParts.as_entry ⟨[1, 2, 3, 4, 5, 0, 0, 0], [97, 108, 105, 99, 101], []⟩ =
      .ok ⟨5, 67305985,
           some (MsgPart.Name [97, 108, 105, 99, 101] [97, 108, 105, 99, 101]), ⟨[]⟩⟩ ∧
    (⟨5, 67305985,
      some (MsgPart.Name [97, 108, 105, 99, 101] [97, 108, 105, 99, 101]), ⟨[]⟩⟩ : Entry).sender =
      some (MsgPart.Name [97, 108, 105, 99, 101] [97, 108, 105, 99, 101]) :=
  ⟨by decide,
    (C6_sender_cascade ⟨[1, 2, 3, 4, 5, 0, 0, 0], [97, 108, 105, 99, 101], []⟩
        ⟨5, 67305985,
         some (MsgPart.Name [97, 108, 105, 99, 101] [97, 108, 105, 99, 101]), ⟨[]⟩⟩
        (by decide)).2.2.1
      [97, 108, 105, 99, 101] (by decide) (by decide) (by decide)⟩

/-- Claim C7: for every record of length at least nine holding a colon at
offset nine or later, framing returns the header as bytes 0–7, the sender
as the bytes from offset nine up to the first such colon, and the message
as the bytes strictly after that colon; byte 8 is never examined. -/
theorem C7_framer_split (bytes : List Nat) (j : Nat) (h9 : 9 ≤ j) (hlt : j < bytes.length)
    (hcolon : bytes.getD j 0 = 0x3A)
    (hfirst : ∀ k, 9 ≤ k → k < j → bytes.getD k 0 ≠ 0x3A) :
    RawEntry.as_parts bytes =
      .ok (some { header := bytes.take 8, sender := subslice bytes 9 j,
                  message := bytes.drop (j + 1) }) := by
  have hfind : findByte (bytes.drop 9) 0x3A = some (j - 9) := by
    apply findByte_eq_some
    · simp only [List.length_drop]
      omega
    · rw [getD_drop, show 9 + (j - 9) = j from by omega]
      exact hcolon
    · intro k hk
      rw [getD_drop]
      exact hfirst (9 + k) (by omega) (by omega)
  have e1 : j - 9 + 9 = j := by omega
  simp [RawEntry.as_parts, RawEntry.get_header, hfind, e1,
        show ¬bytes.length < 8 from by omega, show ¬bytes.length < 9 from by omega]

/-- Witness for C7 at a twelve-byte record with its colon at offset 9. -/
theorem C7_framer_split_witness :
    RawEntry.as_parts [0, 0, 0, 0, 0, 0, 0, 0, 7, 0x3A, 104, 105] =
      .ok (some { header := ([0, 0, 0, 0, 0, 0, 0, 0, 7, 0x3A, 104, 105] : List Nat).take 8,
                  sender := subslice [0, 0, 0, 0, 0, 0, 0, 0, 7, 0x3A, 104, 105] 9 9,
                  message := ([0, 0, 0, 0, 0, 0, 0, 0, 7, 0x3A, 104, 105] : List Nat).drop (9 + 1) }) :=
  C7_framer_split [0, 0, 0, 0, 0, 0, 0, 0, 7, 0x3A, 104, 105] 9 (by omega) (by decide)
    (by decide) (fun k hk1 hk2 => absurd hk2 (by omega))

/-- Claim C8 counterexample: the empty message buffer contains no `0x02`
byte, yet the Message Scanner returns zero segments rather than one
`PlainText` segment holding the lossy decoding of the buffer. -/
theorem C8_counterexample :
    MessageParser.parse [] = RustResult.ok [] ∧
    RustResult.ok ([] : List MsgPart) ≠
      RustResult.ok [MsgPart.PlainText (utf8Lossy [])] := by
  decide

/-- Claim C8 (amended): every nonempty message buffer containing no `0x02`
byte decodes to exactly one `PlainText` segment holding the lossy UTF-8
decoding of the whole buffer. -/
theorem C8_amended_no_marker_single_plaintext (msg : List Nat) (hne : msg ≠ [])
    (hm : ∀ b ∈ msg, b ≠ 0x02) :
    MessageParser.parse msg = .ok [MsgPart.PlainText (utf8Lossy msg)] := by
  unfold MessageParser.parse
  rw [parse_loop_no_marker msg msg.length [] le_rfl hm]
  simp [flush_buf, hne]

/-- Witness for the amended C8 at the buffer `"hi"`. -/
theorem C8_amended_no_marker_single_plaintext_witness :
    MessageParser.parse [104, 105] = .ok [MsgPart.PlainText (utf8Lossy [104, 105])] :=
  C8_amended_no_marker_single_plaintext [104, 105] (by decide) (by decide)

/-- Claim C9 counterexample: on the nine-byte slice `[1, 0, ..., 0]` the
64-bit accumulator's shift amount (`8 × 8 = 64`) is masked to zero, so the
result is 1, not the positional big-endian value `2 ^ 64`. -/
theorem C9_counterexample :
    AutoTranslatePart.byte_array_to_be [1, 0, 0, 0, 0, 0, 0, 0, 0] = some 1 ∧
    be_value_spec [1, 0, 0, 0, 0, 0, 0, 0, 0] = 2 ^ 64 ∧
    AutoTranslatePart.byte_array_to_be [1, 0, 0, 0, 0, 0, 0, 0, 0] ≠
      some (be_value_spec [1, 0, 0, 0, 0, 0, 0, 0, 0]) := by
  decide

/-- Claim C9 (amended): `byte_array_to_be` fails on the empty slice,
decodes `[0x2A]` to 42 and `[0x01, 0x00]` to 256, and decodes every
nonempty byte slice of at most eight bytes to the standard positional
big-endian value; beyond eight bytes the 64-bit accumulator masks its
shift amounts and the positional reading fails. -/
theorem C9_amended_be_decode :
    AutoTranslatePart.byte_array_to_be [] = none ∧
    AutoTranslatePart.byte_array_to_be [0x2A] = some 42 ∧
    AutoTranslatePart.byte_array_to_be [0x01, 0x00] = some 256 ∧
    ∀ bytes : List Nat, bytes ≠ [] → bytes.length ≤ 8 → (∀ b ∈ bytes, b < 256) →
      AutoTranslatePart.byte_array_to_be bytes = some (be_value_spec bytes) :=
  ⟨by decide, by decide, by decide, byte_array_to_be_spec⟩

/-- Witness for the amended C9 at the slice `[2, 1]`. -/
theorem C9_amended_be_decode_witness :
    AutoTranslatePart.byte_array_to_be [2, 1] = some (be_value_spec [2, 1]) :=
  C9_amended_be_decode.2.2.2 [2, 1] (by decide) (by decide) (by decide)

/-- Claim C10: every `PlainText` segment returned by the Message Scanner is
nonempty — the literal accumulator is only flushed when it holds at least
one byte — and the empty message buffer decodes to zero segments. -/
theorem C10_plaintext_nonempty :
    (∀ msg res, MessageParser.parse msg = .ok res →
      ∀ t, MsgPart.PlainText t ∈ res → t ≠ []) ∧
    MessageParser.parse [] = .ok [] :=
  ⟨fun msg res h => parse_loop_plaintext_ne_nil msg.length msg [] res h, by decide⟩

/-- Witness for C10 at the one-byte buffer `[104]`. -/
theorem C10_plaintext_nonempty_witness : ([104] : List Nat) ≠ [] :=
  C10_plaintext_nonempty.1 [104] [MsgPart.PlainText [104]] (by decide) [104] (by decide)
